import Mathlib

/-!
Verification of the faststream AsyncAPI schema-synthesis utilities
(`faststream/specification/asyncapi/utils.py`) and of the publisher
binding contract described around `faststream/_internal/publisher/proto.py`.

Python dictionaries are modelled as insertion-ordered association lists
with unique keys (the only case a Python `dict` can realise); Python
string operations used by the source (`split`, `join`, `replace`,
`title`) are modelled character-wise so that every definition reduces in
the kernel.
-/

namespace Faststream

/-- A Python value as far as the schema synthesiser observes it: strings
(titles), opaque scalars, and nested dictionaries (schema objects). -/
inductive PyVal where
  | str : String → PyVal
  | int : Int → PyVal
  | dict : List (String × PyVal) → PyVal

/-- `AnyDict` from `faststream._internal.basic_types`: a string-keyed
insertion-ordered dictionary. -/
abbrev AnyDict := List (String × PyVal)

/-- `d[k]` lookup on a Python dict: the value at the first matching key,
`none` when the key is absent (Python raises `KeyError`). -/
def assocGet {α : Type} : List (String × α) → String → Option α
  | [], _ => none
  | (k0, v) :: rest, k => if k0 = k then some v else assocGet rest k

/-- `d[k] = v` on a Python dict: replace the value at an existing key in
place (keeping its position), else append a fresh entry. -/
def assocSet {α : Type} : List (String × α) → String → α → List (String × α)
  | [], k, v => [(k, v)]
  | (k0, v0) :: rest, k, v =>
      if k0 = k then (k0, v) :: rest else (k0, v0) :: assocSet rest k v

/-- Python `str.split(sep)` for a one-character separator, on the
character list: `[] ↦ [[]]`, and a separator character opens a new
(initially empty) segment. -/
def splitChar (sep : Char) : List Char → List (List Char)
  | [] => [[]]
  | c :: rest =>
    match splitChar sep rest with
    | [] => if c = sep then [[], []] else [[c]]
    | w :: ws => if c = sep then [] :: w :: ws else (c :: w) :: ws

/-- Python `title.split(sep)` for a one-character separator. -/
def pySplit (sep : Char) (s : String) : List String :=
  (splitChar sep s.data).map String.mk

/-- Python `sep.join(parts)`. -/
def joinSep (sep : String) : List String → String
  | [] => ""
  | [x] => x
  | x :: y :: xs => x ++ sep ++ joinSep sep (y :: xs)

/-- Python slice `xs[i:]` for an `int` index: drop `i` from the front
when `i ≥ 0`, else keep the last `-i` elements (clamped). -/
def pySliceFrom {α : Type} (i : Int) (xs : List α) : List α :=
  if 0 ≤ i then xs.drop i.toNat else xs.drop (xs.length - (-i).toNat)

/-- The title rewrite in `resolve_payloads` (utils.py lines 26–35):
`":".join(filter(bool, (handler_name, extra if extra not in words else "",
*words[served_words:])))`. -/
def newTitle (handler_name extra : String) (served_words : Int)
    (words : List String) : String :=
  joinSep ":"
    ((handler_name :: (if extra ∈ words then "" else extra)
        :: pySliceFrom served_words words).filter (fun s => s ≠ ""))

/-- One iteration of the `for body, handler_name in payloads` loop of
`resolve_payloads` (utils.py lines 21–37), threading the
`one_of_payloads` accumulator.  `none` models the `KeyError` /
`AttributeError` Python would raise when `body["title"]` is missing or
not a string. -/
def resolveStep (extra : String) (served_words : Int)
    (acc : AnyDict) (pair : AnyDict × String) : Option AnyDict :=
  match assocGet pair.1 "title" with
  | some (PyVal.str title) =>
      let words := pySplit ':' title
      if words.length > 1 then
        let title2 := newTitle pair.2 extra served_words words
        some (assocSet acc title2
          (PyVal.dict (assocSet pair.1 "title" (PyVal.str title2))))
      else
        some (assocSet acc title (PyVal.dict pair.1))
  | _ => none

/-- `resolve_payloads` from `faststream/specification/asyncapi/utils.py`:
merge `(schema, handler_name)` pairs into one document fragment.  The
`Option` records that the multi-pair loop can raise on a missing or
non-string title; all other branches always return. -/
def resolve_payloads (payloads : List (AnyDict × String))
    (extra : String) (served_words : Int) : Option AnyDict :=
  if payloads.length > 1 then
    (payloads.foldlM (resolveStep extra served_words) []).map
      (fun m => [("oneOf", PyVal.dict m)])
  else if payloads.length = 1 then
    (payloads.head?).map Prod.fst
  else
    some []

/-- Python `str.replace("_", " ")` at the character level. -/
def substUnderscore (c : Char) : Char := if c = '_' then ' ' else c

/-- Python `str.title()` on a character list: an alphabetic character is
uppercased when the previous character was not alphabetic and lowercased
otherwise; other characters pass through and reset the word boundary. -/
def pyTitleGo : Bool → List Char → List Char
  | _, [] => []
  | prevCased, c :: rest =>
      if c.isAlpha then
        (if prevCased then c.toLower else c.toUpper) :: pyTitleGo true rest
      else
        c :: pyTitleGo false rest

/-- Python `str.title()`. -/
def pyTitle (s : String) : String := String.mk (pyTitleGo false s.data)

/-- Python `str.replace("_", " ")`. -/
def underscoreToSpace (s : String) : String :=
  String.mk (s.data.map substUnderscore)

/-- Python `str.replace(" ", "")`. -/
def stripSpaces (s : String) : String :=
  String.mk (s.data.filter (fun c => c ≠ ' '))

/-- `to_camelcase` from utils.py:
`" ".join(names).replace("_", " ").title().replace(" ", "")`. -/
def to_camelcase (names : List String) : String :=
  stripSpaces (pyTitle (underscoreToSpace (joinSep " " names)))

/-- Python `key.replace("/", ".")` at the character level. -/
def clearChar (c : Char) : Char := if c = '/' then '.' else c

/-- `clear_key` from utils.py: `key.replace("/", ".")`. -/
def clear_key (key : String) : String := String.mk (key.data.map clearChar)

/-- The (string) value of a schema's "title" field, defaulting to `""`
when absent; used to state lemmas about the loop on inputs whose titles
are known to be present. -/
def strTitle (d : AnyDict) : String :=
  match assocGet d "title" with
  | some (PyVal.str t) => t
  | _ => ""

/-- The schema carries a string "title" field — the precondition under
which the multi-pair loop of `resolve_payloads` cannot raise. -/
def hasStrTitle (d : AnyDict) : Prop :=
  ∃ t, assocGet d "title" = some (PyVal.str t)

/-- The (final title, stored schema value) that one loop iteration of
`resolve_payloads` inserts into `one_of_payloads` for a given pair. -/
def codeEntry (extra : String) (served_words : Int)
    (p : AnyDict × String) : String × PyVal :=
  if (pySplit ':' (strTitle p.1)).length > 1 then
    (newTitle p.2 extra served_words (pySplit ':' (strTitle p.1)),
      PyVal.dict (assocSet p.1 "title"
        (PyVal.str (newTitle p.2 extra served_words (pySplit ':' (strTitle p.1))))))
  else
    (strTitle p.1, PyVal.dict p.1)

/-- The pure (never-raising) form of one loop iteration, valid on pairs
satisfying `hasStrTitle`. -/
def codeStep (extra : String) (served_words : Int)
    (acc : AnyDict) (p : AnyDict × String) : AnyDict :=
  assocSet acc (codeEntry extra served_words p).1 (codeEntry extra served_words p).2

/-- The title rewrite as the specification words it: the `:`-join of the
non-empty members of [handler name, the extra marker if it is not
verbatim among the original segments (an empty marker is dropped), the
segments after dropping the first `served_words`]. -/
def specNewTitle (handler_name extra : String) (served_words : Nat)
    (words : List String) : String :=
  joinSep ":"
    (([handler_name]
        ++ (if extra ∈ words then [] else [extra])
        ++ words.drop served_words).filter (fun s => s ≠ ""))

/-- One loop iteration as the specification words it: a multi-segment
title is rewritten by `specNewTitle` (and the schema's title field
updated to it), a single-segment title is left untouched; the entry is
then inserted into the ordered mapping. -/
def specStep (extra : String) (served_words : Nat)
    (acc : AnyDict) (p : AnyDict × String) : AnyDict :=
  if (pySplit ':' (strTitle p.1)).length > 1 then
    assocSet acc (specNewTitle p.2 extra served_words (pySplit ':' (strTitle p.1)))
      (PyVal.dict (assocSet p.1 "title"
        (PyVal.str (specNewTitle p.2 extra served_words (pySplit ':' (strTitle p.1))))))
  else
    assocSet acc (strTitle p.1) (PyVal.dict p.1)

/-- The value bound to key `k` by the LAST entry of `l` whose key is
`k`, if any — the last-write-wins reading of an entry sequence. -/
def lastBound {α : Type} : List (String × α) → String → Option α
  | [], _ => none
  | p :: rest, k =>
      match lastBound rest k with
      | some v => some v
      | none => if p.1 = k then some p.2 else none

/-- Error kinds of the publish path (spec section 7): NotReady,
Transport passthrough, request Timeout. -/
inductive PubError where
  | notReady
  | transport
  | timeout

/-- An outbound publish command: destination, body, optional
correlation identifier (spec section 3). -/
structure PublishCommand where
  destination : String
  body : String
  correlation_id : Option String

/-- Modelled from the spec: a stub backend Producer satisfying
`ProducerProto` (concrete producers are not under `src/`, which holds
only the abstract protocol); it answers publish and request commands. -/
structure ProducerModel where
  onPublish : PublishCommand → Option String
  onRequest : PublishCommand → String

/-- Modelled from the spec: the concrete Publisher behind
`PublisherProto` (only the abstract protocol is under `src/`).  It owns
a single optional reference to a bound Producer, absent until `_setup`
binds it. -/
structure Publisher where
  destination : String
  producer : Option ProducerModel

/-- Modelled from the spec: `Publisher.publish` — before binding it
fails with NotReady and performs no transport call; after binding it
builds a command and invokes the Producer once.  The second component
counts the transport (Producer) calls performed. -/
def Publisher.publish (p : Publisher) (message : String)
    (correlation_id : Option String) : Except PubError (Option String) × Nat :=
  match p.producer with
  | none => (Except.error PubError.notReady, 0)
  | some prod =>
      (Except.ok (prod.onPublish ⟨p.destination, message, correlation_id⟩), 1)

/-- Modelled from the spec: `Publisher.request` — before binding it
fails with NotReady and performs no transport call; after binding it
calls the Producer's correlated request operation directly.  The second
component counts the transport (Producer) calls performed. -/
def Publisher.request (p : Publisher) (message : String)
    (correlation_id : Option String) : Except PubError (Option String) × Nat :=
  match p.producer with
  | none => (Except.error PubError.notReady, 0)
  | some prod =>
      (Except.ok (some (prod.onRequest ⟨p.destination, message, correlation_id⟩)), 1)

/-- Modelled from the spec: `_setup` binds the Producer exactly once. -/
def Publisher.setup (p : Publisher) (prod : ProducerModel) : Publisher :=
  { p with producer := some prod }

/-! ## Association-list laws -/

theorem assocGet_assocSet_self {α : Type} (d : List (String × α)) (k : String) (v : α) :
    assocGet (assocSet d k v) k = some v := by
  induction d with
  | nil => simp [assocSet, assocGet]
  | cons hd tl ih =>
      obtain ⟨k0, v0⟩ := hd
      by_cases h : k0 = k
      · simp [assocSet, assocGet, h]
      · simp [assocSet, assocGet, h, ih]

theorem assocGet_assocSet_ne {α : Type} (d : List (String × α)) (k k2 : String) (v : α)
    (h : k2 ≠ k) : assocGet (assocSet d k v) k2 = assocGet d k2 := by
  have hne : ¬k = k2 := fun hh => h hh.symm
  induction d with
  | nil => simp [assocSet, assocGet, hne]
  | cons hd tl ih =>
      obtain ⟨k0, v0⟩ := hd
      by_cases hk : k0 = k
      · subst hk
        simp [assocSet, assocGet, hne]
      · simp [assocSet, assocGet, hk, ih]

theorem assocGet_foldl_assocSet {α : Type} (l : List (String × α)) :
    ∀ (init : List (String × α)) (k : String),
      assocGet (l.foldl (fun a e => assocSet a e.1 e.2) init) k =
        (match lastBound l k with
          | some v => some v
          | none => assocGet init k) := by
  induction l with
  | nil => intro init k; rfl
  | cons hd tl ih =>
      intro init k
      rw [List.foldl_cons, ih]
      cases hlb : lastBound tl k with
      | some v => simp [lastBound, hlb]
      | none =>
          simp only [lastBound, hlb]
          by_cases hk : hd.1 = k
          · rw [← hk, assocGet_assocSet_self, if_pos rfl]
          · rw [assocGet_assocSet_ne _ _ _ _ (fun hh => hk hh.symm), if_neg hk]

/-! ## The multi-pair loop of resolve_payloads -/

theorem resolveStep_eq_codeStep (extra : String) (sw : Int) (acc : AnyDict)
    (p : AnyDict × String) (h : hasStrTitle p.1) :
    resolveStep extra sw acc p = some (codeStep extra sw acc p) := by
  obtain ⟨t, hget⟩ := h
  have hst : strTitle p.1 = t := by simp [strTitle, hget]
  simp only [resolveStep, codeStep, codeEntry, hget, hst]
  by_cases hl : (pySplit ':' t).length > 1
  · simp [hl]
  · simp [hl]

theorem foldlM_resolveStep (extra : String) (sw : Int) (l : List (AnyDict × String)) :
    ∀ acc : AnyDict, (∀ p ∈ l, hasStrTitle p.1) →
      List.foldlM (resolveStep extra sw) acc l =
        some (List.foldl (codeStep extra sw) acc l) := by
  induction l with
  | nil => intro acc _; rfl
  | cons hd tl ih =>
      intro acc hl
      rw [List.foldlM_cons, resolveStep_eq_codeStep extra sw acc hd
        (hl hd (List.mem_cons_self hd tl))]
      rw [List.foldl_cons]
      exact ih (codeStep extra sw acc hd) (fun p hp => hl p (List.mem_cons_of_mem hd hp))

/-- On a list of two or more pairs all of which carry a string title,
`resolve_payloads` returns the `oneOf` fragment built by folding the
pure loop step over the pairs. -/
theorem resolve_payloads_of_titles (payloads : List (AnyDict × String))
    (extra : String) (sw : Int) (h2 : 2 ≤ payloads.length)
    (ht : ∀ p ∈ payloads, hasStrTitle p.1) :
    resolve_payloads payloads extra sw =
      some [("oneOf", PyVal.dict (payloads.foldl (codeStep extra sw) []))] := by
  unfold resolve_payloads
  rw [if_pos (by omega), foldlM_resolveStep extra sw payloads [] ht]
  rfl

/-! ## The spec's wording of the rewrite agrees with the code -/

theorem specNewTitle_eq_newTitle (h e : String) (sw : Int) (hsw : 0 ≤ sw)
    (words : List String) :
    specNewTitle h e sw.toNat words = newTitle h e sw words := by
  unfold specNewTitle newTitle pySliceFrom
  rw [if_pos hsw]
  by_cases hm : e ∈ words
  · simp [hm, List.filter_cons]
  · simp [hm, List.filter_cons]

theorem specStep_eq_codeStep (extra : String) (sw : Int) (hsw : 0 ≤ sw)
    (acc : AnyDict) (p : AnyDict × String) :
    specStep extra sw.toNat acc p = codeStep extra sw acc p := by
  unfold specStep codeStep codeEntry
  by_cases hl : (pySplit ':' (strTitle p.1)).length > 1
  · simp [hl, specNewTitle_eq_newTitle _ _ _ hsw]
  · simp [hl]

/-! ## Every oneOf value is a schema whose title equals its key -/

theorem codeEntry_titled (extra : String) (sw : Int) (p : AnyDict × String)
    (h : hasStrTitle p.1) :
    ∃ b, (codeEntry extra sw p).2 = PyVal.dict b ∧
      assocGet b "title" = some (PyVal.str (codeEntry extra sw p).1) := by
  obtain ⟨t, hget⟩ := h
  have hst : strTitle p.1 = t := by simp [strTitle, hget]
  unfold codeEntry
  rw [hst]
  by_cases hl : (pySplit ':' t).length > 1
  · rw [if_pos hl]
    exact ⟨_, rfl, assocGet_assocSet_self _ _ _⟩
  · rw [if_neg hl]
    exact ⟨p.1, rfl, hget⟩

theorem oneOf_titles_invariant (extra : String) (sw : Int)
    (l : List (AnyDict × String)) :
    ∀ acc : AnyDict, (∀ p ∈ l, hasStrTitle p.1) →
      (∀ t v, assocGet acc t = some v →
        ∃ b, v = PyVal.dict b ∧ assocGet b "title" = some (PyVal.str t)) →
      ∀ t v, assocGet (l.foldl (codeStep extra sw) acc) t = some v →
        ∃ b, v = PyVal.dict b ∧ assocGet b "title" = some (PyVal.str t) := by
  induction l with
  | nil => intro acc _ hacc; simpa using hacc
  | cons hd tl ih =>
      intro acc hl hacc
      rw [List.foldl_cons]
      refine ih (codeStep extra sw acc hd)
        (fun p hp => hl p (List.mem_cons_of_mem hd hp)) ?_
      intro t v hget
      unfold codeStep at hget
      by_cases hk : (codeEntry extra sw hd).1 = t
      · rw [← hk, assocGet_assocSet_self] at hget
        obtain ⟨b, hb, hbt⟩ :=
          codeEntry_titled extra sw hd (hl hd (List.mem_cons_self hd tl))
        refine ⟨b, ?_, ?_⟩
        · rw [← hb]; exact (Option.some.inj hget).symm
        · rw [← hk]; exact hbt
      · rw [assocGet_assocSet_ne _ _ _ _ (fun hh => hk hh.symm)] at hget
        exact hacc t v hget

/-! ## Claims -/

/-- Claim C1: on a list of at least two pairs, each pair whose title
splits on ":" into more than one segment has its title rewritten as the
":"-join of the non-empty members of [handler name, the extra marker if
not verbatim among the original segments (an empty marker is dropped),
the segments after dropping the first `served_words`] — the whole
`oneOf` mapping is the fold of this spec-worded step.  In particular
for title "A:B:C", handler "h", `served_words = 1`: extra "E" (not a
segment) yields "h:E:B:C", and extra "B" (a segment) yields "h:B:C". -/
theorem resolve_payloads_rewrites_titles_as_specified
    (payloads : List (AnyDict × String)) (extra : String) (sw : Int)
    (hsw : 0 ≤ sw) (h2 : 2 ≤ payloads.length)
    (ht : ∀ p ∈ payloads, hasStrTitle p.1) :
    resolve_payloads payloads extra sw =
      some [("oneOf", PyVal.dict (payloads.foldl (specStep extra sw.toNat) []))]
    ∧ specNewTitle "h" "E" 1 (pySplit ':' "A:B:C") = "h:E:B:C"
    ∧ specNewTitle "h" "B" 1 (pySplit ':' "A:B:C") = "h:B:C" := by
  refine ⟨?_, by decide, by decide⟩
  have hfun : specStep extra sw.toNat = codeStep extra sw := by
    funext acc p
    exact specStep_eq_codeStep extra sw hsw acc p
  rw [hfun]
  exact resolve_payloads_of_titles payloads extra sw h2 ht

theorem resolve_payloads_rewrites_titles_as_specified_witness :
    resolve_payloads
        [([("title", PyVal.str "A:B:C")], "h"), ([("title", PyVal.str "T")], "g")]
        "E" 1 =
      some [("oneOf", PyVal.dict
        (List.foldl (specStep "E" (Int.toNat 1)) []
          [([("title", PyVal.str "A:B:C")], "h"), ([("title", PyVal.str "T")], "g")]))]
    ∧ specNewTitle "h" "E" 1 (pySplit ':' "A:B:C") = "h:E:B:C"
    ∧ specNewTitle "h" "B" 1 (pySplit ':' "A:B:C") = "h:B:C" :=
  resolve_payloads_rewrites_titles_as_specified
    [([("title", PyVal.str "A:B:C")], "h"), ([("title", PyVal.str "T")], "g")]
    "E" 1 (by decide) (by decide)
    (by
      intro p hp
      simp only [List.mem_cons, List.mem_singleton] at hp
      rcases hp with rfl | rfl | hp
      · exact ⟨"A:B:C", rfl⟩
      · exact ⟨"T", rfl⟩
      · exact absurd hp (List.not_mem_nil p))

/-- Claim C2: `resolve_payloads` returns exactly one of three shapes,
decided by the input length — the empty object for zero pairs, the
single pair's schema for one pair, and an object whose sole key is
"oneOf" whenever it returns at all on two or more pairs. -/
theorem resolve_payloads_three_shapes (payloads : List (AnyDict × String))
    (extra : String) (sw : Int) :
    (payloads.length = 0 → resolve_payloads payloads extra sw = some [])
    ∧ (∀ body hname, payloads = [(body, hname)] →
        resolve_payloads payloads extra sw = some body)
    ∧ (2 ≤ payloads.length → ∀ r, resolve_payloads payloads extra sw = some r →
        ∃ m, r = [("oneOf", PyVal.dict m)]) := by
  refine ⟨?_, ?_, ?_⟩
  · intro h0
    rw [List.length_eq_zero.mp h0]
    rfl
  · rintro body hname rfl
    rfl
  · intro h2 r hr
    unfold resolve_payloads at hr
    rw [if_pos (by omega)] at hr
    cases hfold : List.foldlM (resolveStep extra sw) [] payloads with
    | none => rw [hfold] at hr; simp at hr
    | some m =>
        rw [hfold] at hr
        simp only [Option.map_some'] at hr
        exact ⟨m, (Option.some.inj hr).symm⟩

theorem resolve_payloads_three_shapes_witness :
    resolve_payloads [] "" 1 = some []
    ∧ resolve_payloads [([("title", PyVal.str "T")], "h")] "" 1 =
        some [("title", PyVal.str "T")]
    ∧ ∃ m, [("oneOf", PyVal.dict [("A", PyVal.dict [("title", PyVal.str "A")]),
        ("B", PyVal.dict [("title", PyVal.str "B")])])] = [("oneOf", PyVal.dict m)] :=
  ⟨(resolve_payloads_three_shapes [] "" 1).1 rfl,
    (resolve_payloads_three_shapes [([("title", PyVal.str "T")], "h")] "" 1).2.1
      [("title", PyVal.str "T")] "h" rfl,
    (resolve_payloads_three_shapes
        [([("title", PyVal.str "A")], "h1"), ([("title", PyVal.str "B")], "h2")]
        "" 1).2.2 (by decide) _ rfl⟩

/-- Claim C3: on a single-pair input, `resolve_payloads` returns the
pair's schema unchanged — whatever the title's shape and whatever the
`extra` and `served_words` arguments; in the pure embedding the returned
object is the caller's schema itself, so nothing is rewritten or
mutated. -/
theorem resolve_payloads_single_pair_unchanged (body : AnyDict) (hname : String)
    (extra : String) (sw : Int) :
    resolve_payloads [(body, hname)] extra sw = some body := rfl

/-- Claim C4: when several entries resolve to the same final title, no
error is raised and the `oneOf` mapping binds that title to the value of
the latest such entry in input order (last write wins). -/
theorem resolve_payloads_last_write_wins (payloads : List (AnyDict × String))
    (extra : String) (sw : Int) (h2 : 2 ≤ payloads.length)
    (ht : ∀ p ∈ payloads, hasStrTitle p.1) (t : String)
    (_hcol : 2 ≤ ((payloads.map (codeEntry extra sw)).filter
        (fun e => e.1 = t)).length) :
    ∃ m, resolve_payloads payloads extra sw = some [("oneOf", PyVal.dict m)] ∧
      assocGet m t = lastBound (payloads.map (codeEntry extra sw)) t := by
  refine ⟨_, resolve_payloads_of_titles payloads extra sw h2 ht, ?_⟩
  have hmap : payloads.foldl (codeStep extra sw) [] =
      (payloads.map (codeEntry extra sw)).foldl (fun a e => assocSet a e.1 e.2) [] := by
    rw [List.foldl_map]
    rfl
  rw [hmap, assocGet_foldl_assocSet]
  cases hlb : lastBound (payloads.map (codeEntry extra sw)) t <;> simp [assocGet]

theorem resolve_payloads_last_write_wins_witness :
    ∃ m, resolve_payloads
        [([("title", PyVal.str "T")], "h1"),
         ([("title", PyVal.str "T"), ("x", PyVal.int 1)], "h2")] "" 1 =
      some [("oneOf", PyVal.dict m)] ∧
      assocGet m "T" = lastBound
        (List.map (codeEntry "" 1)
          [([("title", PyVal.str "T")], "h1"),
           ([("title", PyVal.str "T"), ("x", PyVal.int 1)], "h2")]) "T" :=
  resolve_payloads_last_write_wins
    [([("title", PyVal.str "T")], "h1"),
     ([("title", PyVal.str "T"), ("x", PyVal.int 1)], "h2")]
    "" 1 (by decide)
    (by
      intro p hp
      simp only [List.mem_cons, List.mem_singleton] at hp
      rcases hp with rfl | rfl | hp
      · exact ⟨"T", rfl⟩
      · exact ⟨"T", rfl⟩
      · exact absurd hp (List.not_mem_nil p))
    "T" (by decide)

/-- Claim C5: on a two-pair input whose schemas carry distinct
single-segment titles, the result is `{"oneOf": {title1: schema1,
title2: schema2}}` in input order, both titles untouched and both
schema objects returned verbatim. -/
theorem resolve_payloads_two_distinct_single_segment (b1 b2 : AnyDict)
    (h1 h2 : String) (t1 t2 : String) (extra : String) (sw : Int)
    (hg1 : assocGet b1 "title" = some (PyVal.str t1))
    (hg2 : assocGet b2 "title" = some (PyVal.str t2))
    (hs1 : (pySplit ':' t1).length = 1)
    (hs2 : (pySplit ':' t2).length = 1)
    (hne : t1 ≠ t2) :
    resolve_payloads [(b1, h1), (b2, h2)] extra sw =
      some [("oneOf", PyVal.dict [(t1, PyVal.dict b1), (t2, PyVal.dict b2)])] := by
  unfold resolve_payloads
  rw [if_pos (by simp)]
  simp [List.foldlM_cons, List.foldlM_nil, resolveStep, hg1, hg2, hs1, hs2,
    assocSet, hne]

theorem resolve_payloads_two_distinct_single_segment_witness :
    resolve_payloads
        [([("title", PyVal.str "A")], "h1"),
         ([("title", PyVal.str "B"), ("x", PyVal.int 7)], "h2")] "E" 1 =
      some [("oneOf", PyVal.dict
        [("A", PyVal.dict [("title", PyVal.str "A")]),
         ("B", PyVal.dict [("title", PyVal.str "B"), ("x", PyVal.int 7)])])] :=
  resolve_payloads_two_distinct_single_segment
    [("title", PyVal.str "A")] [("title", PyVal.str "B"), ("x", PyVal.int 7)]
    "h1" "h2" "A" "B" "E" 1 rfl rfl (by decide) (by decide) (by decide)

/-- Claim C6: on a Publisher whose producer reference is still absent
(no `_setup` yet), both `publish` and `request` fail with the NotReady
error kind and perform zero transport (Producer) calls. -/
theorem publisher_not_ready_before_setup (p : Publisher) (msg : String)
    (cid : Option String) (hunbound : p.producer = none) :
    p.publish msg cid = (Except.error PubError.notReady, 0) ∧
    p.request msg cid = (Except.error PubError.notReady, 0) := by
  unfold Publisher.publish Publisher.request
  rw [hunbound]
  exact ⟨rfl, rfl⟩

theorem publisher_not_ready_before_setup_witness :
    (Publisher.mk "queue" none).publish "msg" none
        = (Except.error PubError.notReady, 0) ∧
    (Publisher.mk "queue" none).request "msg" none
        = (Except.error PubError.notReady, 0) :=
  publisher_not_ready_before_setup (Publisher.mk "queue" none) "msg" none rfl

/-- Claim C7: `to_camelcase` joins its name arguments with spaces,
replaces underscores with spaces, title-cases each word, then strips
all spaces (so the result never contains a space); in particular
`to_camelcase ["order_created"] = "OrderCreated"` and
`to_camelcase ["a", "b_c"] = "ABC"`. -/
theorem to_camelcase_spec :
    to_camelcase ["order_created"] = "OrderCreated"
    ∧ to_camelcase ["a", "b_c"] = "ABC"
    ∧ ∀ names : List String,
        to_camelcase names =
          stripSpaces (pyTitle (underscoreToSpace (joinSep " " names)))
        ∧ (' ' : Char) ∉ (to_camelcase names).data := by
  refine ⟨by decide, by decide, fun names => ⟨rfl, ?_⟩⟩
  intro hmem
  simp [to_camelcase, stripSpaces, List.mem_filter] at hmem

/-- Claim C8: `clear_key` replaces every "/" of its input by "." (its
output is the character-wise substitution and never contains "/"); in
particular `clear_key "a/b/c" = "a.b.c"`. -/
theorem clear_key_spec :
    clear_key "a/b/c" = "a.b.c"
    ∧ ∀ k : String, (clear_key k).data = k.data.map clearChar
        ∧ ('/' : Char) ∉ (clear_key k).data := by
  refine ⟨by decide, fun k => ⟨rfl, ?_⟩⟩
  intro hmem
  simp only [clear_key] at hmem
  obtain ⟨c, -, heq⟩ := List.mem_map.mp hmem
  by_cases hc : c = '/'
  · rw [hc] at heq
    simp [clearChar] at heq
  · simp [clearChar, hc] at heq

/-- Claim C9: on two or more pairs each carrying a string title, every
key of the returned `oneOf` mapping equals the "title" field of the
schema object stored at that key. -/
theorem resolve_payloads_oneOf_keys_are_titles (payloads : List (AnyDict × String))
    (extra : String) (sw : Int) (h2 : 2 ≤ payloads.length)
    (ht : ∀ p ∈ payloads, hasStrTitle p.1) :
    ∃ m, resolve_payloads payloads extra sw = some [("oneOf", PyVal.dict m)] ∧
      ∀ t v, assocGet m t = some v →
        ∃ b, v = PyVal.dict b ∧ assocGet b "title" = some (PyVal.str t) := by
  refine ⟨_, resolve_payloads_of_titles payloads extra sw h2 ht, ?_⟩
  refine oneOf_titles_invariant extra sw payloads [] ht ?_
  intro t v hv
  simp [assocGet] at hv

theorem resolve_payloads_oneOf_keys_are_titles_witness :
    ∃ m, resolve_payloads
        [([("title", PyVal.str "A:B:C")], "h"), ([("title", PyVal.str "T")], "g")]
        "E" 1 =
      some [("oneOf", PyVal.dict m)] ∧
      ∀ t v, assocGet m t = some v →
        ∃ b, v = PyVal.dict b ∧ assocGet b "title" = some (PyVal.str t) :=
  resolve_payloads_oneOf_keys_are_titles
    [([("title", PyVal.str "A:B:C")], "h"), ([("title", PyVal.str "T")], "g")]
    "E" 1 (by decide)
    (by
      intro p hp
      simp only [List.mem_cons, List.mem_singleton] at hp
      rcases hp with rfl | rfl | hp
      · exact ⟨"A:B:C", rfl⟩
      · exact ⟨"T", rfl⟩
      · exact absurd hp (List.not_mem_nil p))

/-- Claim C10: `clear_key` is idempotent — its output contains no "/"
left to replace, so applying it twice equals applying it once. -/
theorem clear_key_idempotent (k : String) :
    clear_key (clear_key k) = clear_key k := by
  have hcc : ∀ c, clearChar (clearChar c) = clearChar c := by
    intro c
    by_cases h : c = '/'
    · simp [clearChar, h]
    · simp [clearChar, h]
  have hfun : clearChar ∘ clearChar = clearChar := funext hcc
  simp [clear_key, List.map_map, hfun]

end Faststream
